import Mathlib

/-!
Verification of the core of the ideal-octo-hoster review pipeline:
the diff parser (`DiffEngine.parse`), the risk scorer (`RiskAnalyzer.analyze`),
the review orchestrator (`ReviewEngine.reviewChunk`) and the deep-analysis
aggregator / multi-model comparator (`DeepAnalysisEngine`).

Modelling conventions for the JavaScript/TypeScript source:
* JS strings are Lean `String`s; per-character operations work on `String.data`.
* JSON numbers are modelled as `Int` (the embedding does not cover
  non-integer numeric literals; floating point is outside its scope).
  A JS number that may be NaN is modelled as `Option Int` with `none` = NaN.
* The text-generation backend call (`copilot.ask`) is modelled by its result:
  `Except String String` (error message, or returned text).
* JS `Array.prototype.sort` with a numeric comparator is stable (ES2019);
  it is modelled by a stable insertion sort on the same key.
-/

/-- Characters counted by the JS regex class `\s` (ASCII fragment; the
    Unicode whitespace code points never occur in the inputs modelled here). -/
def jsWs (c : Char) : Bool :=
  c = ' ' || c = '\t' || c = '\n' || c = '\r' || c = '\x0b' || c = '\x0c'

/-- JSON (RFC 8259) insignificant whitespace, as accepted by `JSON.parse`. -/
def jsonWs (c : Char) : Bool :=
  c = ' ' || c = '\t' || c = '\n' || c = '\r'

/-- JS regex word character (`\w` without the `u` flag): `[A-Za-z0-9_]`. -/
def wordChar (c : Char) : Bool :=
  c.isAlpha || c.isDigit || c = '_'

/-- JS `String.prototype.trim` (ASCII fragment). -/
def jsTrim (s : String) : String :=
  String.mk (((s.data.dropWhile jsWs).reverse.dropWhile jsWs).reverse)

/-- `block.split(c)` on a character list: split at every occurrence of `sep`.
    Always returns a non-empty list of separator-free pieces. -/
def splitOnCh (sep : Char) : List Char → List (List Char)
  | [] => [[]]
  | c :: cs =>
    match splitOnCh sep cs with
    | [] => [[]]
    | l :: ls => if c = sep then [] :: l :: ls else (c :: l) :: ls

/-- `pieces.join(sep)` on character lists. -/
def joinCh (sep : Char) : List (List Char) → List Char
  | [] => []
  | [l] => l
  | l :: l' :: ls => l ++ sep :: joinCh sep (l' :: ls)

/-- `haystack.includes(needle)` on character lists. -/
def hasInfix (needle : List Char) : List Char → Bool
  | [] => needle.isPrefixOf ([] : List Char)
  | c :: cs => needle.isPrefixOf (c :: cs) || hasInfix needle cs

/-- Case folding used for `/i` regexes (ASCII; all vocabularies are ASCII). -/
def lcList (cs : List Char) : List Char := cs.map Char.toLower

/-- `haystack.includes(needle)` after lower-casing both sides. -/
def hasInfixCI (needle : String) (hay : String) : Bool :=
  hasInfix (lcList needle.data) (lcList hay.data)

/-- `String.endsWith` computed on the character lists. -/
def endsWithL (suffix : String) (s : String) : Bool :=
  suffix.data.isSuffixOf s.data

/-- JS `String.prototype.toUpperCase` (ASCII fragment), on character lists. -/
def ucString (s : String) : String := String.mk (s.data.map Char.toUpper)

/-- Case-insensitive `String.endsWith`. -/
def endsWithCI (suffix : String) (s : String) : Bool :=
  (lcList suffix.data).isSuffixOf (lcList s.data)

/-! ## The JS value universe produced by `JSON.parse` -/

/-- Values produced by `JSON.parse`.  Object fields keep source order;
    duplicate keys are resolved last-wins by `lookupLast` (JS semantics). -/
inductive Json where
  | null : Json
  | bool (b : Bool) : Json
  | num (n : Int) : Json
  | str (s : String) : Json
  | arr (elems : List Json) : Json
  | obj (fields : List (String × Json)) : Json

/-- Last-wins field lookup, matching the object `JSON.parse` builds when a
    key occurs several times. -/
def lookupLast (fields : List (String × Json)) (k : String) : Option Json :=
  fields.foldl (fun acc p => if p.1 = k then some p.2 else acc) none

/-- JS property access `v[k]` for the values relevant here: `none` models
    `undefined` (missing property, or access on a non-object primitive). -/
def jsGet (j : Json) (k : String) : Option Json :=
  match j with
  | Json.obj fields => lookupLast fields k
  | _ => none

/-- The JS nullish-coalescing step `v.k ?? d`: `undefined` and `null`
    both fall back to the default, every other value is kept. -/
def nullishOr (o : Option Json) (d : Json) : Json :=
  match o with
  | none => d
  | some Json.null => d
  | some v => v

/-- JS `ToNumber` coercion as used by `Math.max`/`Math.min`, restricted to
    the values this model tracks exactly: numbers and booleans.  Other
    operands coerce through floating point (possibly to NaN) and are
    modelled as `none` (= NaN). -/
def toNumber (j : Json) : Option Int :=
  match j with
  | Json.num n => some n
  | Json.bool b => some (if b then (1 : Int) else 0)
  | _ => none

/-- `v.k ?? d` followed by numeric coercion (`d` is a number literal in the
    source, so the default is always a genuine number). -/
def numOr (o : Option Json) (d : Int) : Option Int :=
  match o with
  | none => some d
  | some Json.null => some d
  | some v => toNumber v

/-- `Math.min(100, Math.max(0, x))`; NaN propagates through both. -/
def clamp100 (x : Option Int) : Option Int :=
  x.map (fun n => min 100 (max 0 n))

/-! ## `JSON.parse`

A recursive-descent parser for RFC 8259 JSON, with integer numbers only:
an input containing a fraction or exponent part is outside the embedding
and is treated as unparseable.  Control characters inside strings are
rejected (as `JSON.parse` does); the escapes `\" \\ \/ \b \f \n \r \t \uXXXX`
are supported. -/

/-- Decode one hex digit (codes 48-57 are 0-9, 97-102 are a-f, 65-70 A-F). -/
def hexVal (c : Char) : Option Nat :=
  let n := c.toNat
  if 48 ≤ n && n ≤ 57 then some (n - 48)
  else if 97 ≤ n && n ≤ 102 then some (n - 87)
  else if 65 ≤ n && n ≤ 70 then some (n - 55)
  else none

/-- Body of a JSON string literal (after the opening quote): returns the
    decoded characters and the remainder after the closing quote. -/
def parseStrBody : Nat → List Char → Option (List Char × List Char)
  | 0, _ => none
  | _, [] => none
  | fuel + 1, c :: cs =>
    if c = '"' then some ([], cs)
    else if c = '\\' then
      match cs with
      | [] => none
      | e :: cs' =>
        let dec : Option (Char × List Char) :=
          if e = '"' then some ('"', cs')
          else if e = '\\' then some ('\\', cs')
          else if e = '/' then some ('/', cs')
          else if e = 'b' then some ('\x08', cs')
          else if e = 'f' then some ('\x0c', cs')
          else if e = 'n' then some ('\n', cs')
          else if e = 'r' then some ('\r', cs')
          else if e = 't' then some ('\t', cs')
          else if e = 'u' then
            match cs' with
            | h1 :: h2 :: h3 :: h4 :: cs'' =>
              match hexVal h1, hexVal h2, hexVal h3, hexVal h4 with
              | some a, some b, some c3, some d =>
                some (Char.ofNat (((a * 16 + b) * 16 + c3) * 16 + d), cs'')
              | _, _, _, _ => none
            | _ => none
          else none
        match dec with
        | none => none
        | some (ch, rest) =>
          match parseStrBody fuel rest with
          | none => none
          | some (body, rem) => some (ch :: body, rem)
    else if c.toNat < 32 then none
    else
      match parseStrBody fuel cs with
      | none => none
      | some (body, rem) => some (c :: body, rem)

/-- Digits of a JSON integer part (`0` alone, or a nonzero digit followed by
    digits), returned with the remainder. -/
def parseDigits : List Char → Option (List Char × List Char)
  | [] => none
  | c :: cs =>
    if c = '0' then some ([c], cs)
    else if c.isDigit then
      let ds := cs.takeWhile Char.isDigit
      some (c :: ds, cs.dropWhile Char.isDigit)
    else none

/-- Numeric value of a digit list. -/
def digitsVal (ds : List Char) : Nat :=
  ds.foldl (fun acc c => acc * 10 + (c.toNat - '0'.toNat)) 0

/-- A JSON number, restricted to integers: a following `.`/`e`/`E` makes the
    whole input unparseable in this embedding. -/
def parseNum (cs : List Char) : Option (Int × List Char) :=
  let (neg, cs') : Bool × List Char :=
    match cs with
    | c :: rest => if c = '-' then (true, rest) else (false, cs)
    | [] => (false, cs)
  match parseDigits cs' with
  | none => none
  | some (ds, rest) =>
    match rest with
    | c :: _ =>
      if c = '.' || c = 'e' || c = 'E' then none
      else some ((if neg then -(digitsVal ds : Int) else (digitsVal ds : Int)), rest)
    | [] => some ((if neg then -(digitsVal ds : Int) else (digitsVal ds : Int)), rest)

mutual

/-- One JSON value (leading whitespace allowed), returning the remainder. -/
def parseV : Nat → List Char → Option (Json × List Char)
  | 0, _ => none
  | fuel + 1, cs =>
    match cs.dropWhile jsonWs with
    | [] => none
    | c :: rest =>
      if c = '"' then
        match parseStrBody (rest.length + 1) rest with
        | none => none
        | some (body, rem) => some (Json.str (String.mk body), rem)
      else if c = 't' then
        if ['r', 'u', 'e'].isPrefixOf rest then some (Json.bool true, rest.drop 3) else none
      else if c = 'f' then
        if ['a', 'l', 's', 'e'].isPrefixOf rest then some (Json.bool false, rest.drop 4) else none
      else if c = 'n' then
        if ['u', 'l', 'l'].isPrefixOf rest then some (Json.null, rest.drop 3) else none
      else if c = Char.ofNat 91 then
        parseElems fuel rest
      else if c = Char.ofNat 123 then
        parseMembers fuel rest
      else if c = '-' || c.isDigit then
        match parseNum (c :: rest) with
        | none => none
        | some (n, rem) => some (Json.num n, rem)
      else none

/-- Array elements after the opening bracket, including the closing one. -/
def parseElems : Nat → List Char → Option (Json × List Char)
  | 0, _ => none
  | fuel + 1, cs =>
    match cs.dropWhile jsonWs with
    | c :: rest =>
      if c = Char.ofNat 93 then some (Json.arr [], rest)
      else
        match parseElemsLoop fuel cs with
        | none => none
        | some (vs, rem) => some (Json.arr vs, rem)
    | [] => none

/-- `value (, value)* ]` for a non-empty array. -/
def parseElemsLoop : Nat → List Char → Option (List Json × List Char)
  | 0, _ => none
  | fuel + 1, cs =>
    match parseV fuel cs with
    | none => none
    | some (v, rem) =>
      match rem.dropWhile jsonWs with
      | c :: rest =>
        if c = ',' then
          match parseElemsLoop fuel rest with
          | none => none
          | some (vs, rem') => some (v :: vs, rem')
        else if c = Char.ofNat 93 then some ([v], rest)
        else none
      | [] => none

/-- Object members after the opening brace, including the closing one. -/
def parseMembers : Nat → List Char → Option (Json × List Char)
  | 0, _ => none
  | fuel + 1, cs =>
    match cs.dropWhile jsonWs with
    | c :: rest =>
      if c = Char.ofNat 125 then some (Json.obj [], rest)
      else
        match parseMembersLoop fuel cs with
        | none => none
        | some (fs, rem) => some (Json.obj fs, rem)
    | [] => none

/-- `"key" : value (, "key" : value)* }` for a non-empty object. -/
def parseMembersLoop : Nat → List Char → Option (List (String × Json) × List Char)
  | 0, _ => none
  | fuel + 1, cs =>
    match cs.dropWhile jsonWs with
    | c :: rest =>
      if c = '"' then
        match parseStrBody (rest.length + 1) rest with
        | none => none
        | some (key, rem) =>
          match rem.dropWhile jsonWs with
          | ':' :: rem' =>
            match parseV fuel rem' with
            | none => none
            | some (v, rem'') =>
              match rem''.dropWhile jsonWs with
              | c2 :: rest2 =>
                if c2 = ',' then
                  match parseMembersLoop fuel rest2 with
                  | none => none
                  | some (fs, rem3) => some ((String.mk key, v) :: fs, rem3)
                else if c2 = Char.ofNat 125 then some ([(String.mk key, v)], rest2)
                else none
              | [] => none
          | _ => none
      else none
    | [] => none

end

/-- `JSON.parse`: the whole input must be one JSON value (with surrounding
    whitespace); `none` models the `SyntaxError` throw. -/
def parseJson (s : String) : Option Json :=
  match parseV (s.data.length + 1) s.data with
  | none => none
  | some (v, rem) => if rem.dropWhile jsonWs = [] then some v else none

/-! ## Stripping a surrounding markdown code fence

`rawResponse.replace(/^```(?:json)?\s*/m, '').replace(/\s*```$/m, '').trim()`
from `ReviewEngine.reviewChunk` / `DeepAnalysisEngine`.  `replace` without
the `g` flag removes only the first (leftmost) match; with `m`, `^` matches
at position 0 or after a line terminator and `$` before one or at the end. -/

/-- The three-backtick fence marker. -/
def fenceChars : List Char := "```".data

/-- Match of `/^```(?:json)?\s*/` anchored at the head of `cs`: returns the
    remainder after the (greedy) match. -/
def fenceOpenAt (cs : List Char) : Option (List Char) :=
  if fenceChars.isPrefixOf cs then
    let rest := cs.drop 3
    let rest2 := if ("json".data).isPrefixOf rest then rest.drop 4 else rest
    some (rest2.dropWhile jsWs)
  else none

/-- `s.replace(/^```(?:json)?\s*/m, '')`: remove the leftmost line-anchored
    fence opener, if any.  The Boolean flag records whether the current
    position is a line start. -/
def replaceFenceOpen : Bool → List Char → List Char
  | _, [] => []
  | atLS, c :: cs =>
    if atLS then
      match fenceOpenAt (c :: cs) with
      | some rem => rem
      | none => c :: replaceFenceOpen (c = '\n' || c = '\r') cs
    else c :: replaceFenceOpen (c = '\n' || c = '\r') cs

/-- `$` of a multiline regex: end of input or before a line terminator. -/
def atLineEnd : List Char → Bool
  | [] => true
  | c :: _ => c = '\n' || c = '\r'

/-- Literal fence followed by a line end: remainder after it, or `none`. -/
def fenceTicksAt (cs : List Char) : Option (List Char) :=
  if fenceChars.isPrefixOf cs then
    let r := cs.drop 3
    if atLineEnd r then some r else none
  else none

/-- Match of `/\s*```$/` at the head of `cs`, with the greedy/backtracking
    choice JS makes: prefer consuming more whitespace first. -/
def fenceCloseAt : List Char → Option (List Char)
  | [] => fenceTicksAt []
  | c :: cs =>
    if jsWs c then
      match fenceCloseAt cs with
      | some r => some r
      | none => fenceTicksAt (c :: cs)
    else fenceTicksAt (c :: cs)

/-- `s.replace(/\s*```$/m, '')`: remove the leftmost such match, if any. -/
def replaceFenceClose : List Char → List Char
  | [] => []
  | c :: cs =>
    match fenceCloseAt (c :: cs) with
    | some rem => rem
    | none => c :: replaceFenceClose cs

/-- The full decode preprocessing applied to the raw backend text. -/
def stripFences (s : String) : String :=
  jsTrim (String.mk (replaceFenceClose (replaceFenceOpen true s.data)))

/-! ## The Diff Parser (`DiffEngine.parse`) -/

inductive DiffType where
  | addition : DiffType
  | deletion : DiffType
  | modification : DiffType
deriving DecidableEq

structure ChunkMetadata where
  containsFunction : Bool
  containsImportChange : Bool
  containsAuthLogic : Bool
deriving DecidableEq

structure DiffChunk where
  filePath : String
  type : DiffType
  startLine : Nat
  endLine : Nat
  content : String
  metadata : ChunkMetadata
deriving DecidableEq

/-- `diff --git ` file-header marker. -/
def diffGitMarker : List Char := "diff --git ".data

/-- `diff.split(/^diff --git /m)`: split at each line-anchored occurrence of
    the marker (the marker contains no newline, so occurrences are disjoint
    and consumed left to right). -/
def splitDG : Nat → Bool → List Char → List (List Char)
  | 0, _, cs => [cs]
  | _, _, [] => [[]]
  | fuel + 1, atLS, c :: cs =>
    if atLS && diffGitMarker.isPrefixOf (c :: cs) then
      [] :: splitDG fuel false ((c :: cs).drop diffGitMarker.length)
    else
      match splitDG fuel (c = '\n' || c = '\r') cs with
      | [] => [[c]]
      | l :: ls => (c :: l) :: ls

/-- `lines[0].match(/b\/(.+)$/)`: leftmost occurrence of `b/` followed by at
    least one character; the capture runs greedily to the end of the line. -/
def extractBPath : List Char → Option (List Char)
  | 'b' :: '/' :: d :: rest => some (d :: rest)
  | _ :: cs => extractBPath cs
  | [] => none

/-- `\d+` (at least one digit, greedy) with its numeric value. -/
def takeDigits1 (cs : List Char) : Option (Nat × List Char) :=
  match cs with
  | c :: rest =>
    if c.isDigit then
      some (digitsVal (c :: rest.takeWhile Char.isDigit), rest.dropWhile Char.isDigit)
    else none
  | [] => none

/-- `(?:,\d+)?` followed by a mandatory literal that is not a comma or digit:
    a comma not followed by digits makes the whole match fail. -/
def skipOptCommaDigits (cs : List Char) : Option (List Char) :=
  match cs with
  | ',' :: rest =>
    match takeDigits1 rest with
    | some (_, rem) => some rem
    | none => none
  | _ => some cs

/-- `line.match(/^@@ -(\d+)(?:,\d+)? \+(\d+)(?:,(\d+))? @@/)`, returning the
    new-file start line (capture 2, `parseInt` base 10). -/
def hunkNewStart (l : List Char) : Option Nat :=
  match l with
  | '@' :: '@' :: ' ' :: '-' :: rest =>
    match takeDigits1 rest with
    | none => none
    | some (_, r1) =>
      match skipOptCommaDigits r1 with
      | none => none
      | some r2 =>
        match r2 with
        | ' ' :: '+' :: r3 =>
          match takeDigits1 r3 with
          | none => none
          | some (n2, r4) =>
            match skipOptCommaDigits r4 with
            | none => none
            | some r5 =>
              match r5 with
              | ' ' :: '@' :: '@' :: _ => some n2
              | _ => none
        | _ => none
  | _ => none

/-- `line.startsWith('+') && !line.startsWith('+++')`. -/
def isAddLine : List Char → Bool
  | '+' :: '+' :: '+' :: _ => false
  | '+' :: _ => true
  | _ => false

/-- `line.startsWith('-') && !line.startsWith('---')`. -/
def isDelLine : List Char → Bool
  | '-' :: '-' :: '-' :: _ => false
  | '-' :: _ => true
  | _ => false

def wordCharO : Option Char → Bool
  | none => false
  | some c => wordChar c

/-- One keyword of a `\b(..|..)\b` regex matching at the head of `cs`, the
    previous character being `prev` (word boundaries on both sides). -/
def kwMatchAt (kw : List Char) (prev : Option Char) (cs : List Char) : Bool :=
  kw.isPrefixOf cs &&
  (wordCharO prev != wordCharO kw.head?) &&
  (wordCharO kw.getLast? != wordCharO ((cs.drop kw.length).head?))

/-- `.test` of a `\b(..|..)\b` regex: some keyword matches at some position. -/
def scanKws (kws : List (List Char)) : Option Char → List Char → Bool
  | _, [] => false
  | prev, c :: cs => kws.any (fun kw => kwMatchAt kw prev (c :: cs)) || scanKws kws (some c) cs

/-- Alternatives of `/\b(function|def |func |=>|async |class )\b/`. -/
def funcKws : List (List Char) :=
  ["function".data, "def ".data, "func ".data, "=>".data, "async ".data, "class ".data]

/-- Alternatives of the `DiffEngine` security-keyword regex
    `/\b(auth|token|password|credential|secret|jwt|oauth|session|login|logout)\b/i`. -/
def authKwsDiff : List (List Char) :=
  ["auth".data, "token".data, "password".data, "credential".data, "secret".data,
   "jwt".data, "oauth".data, "session".data, "login".data, "logout".data]

def importKws : List (List Char) := ["import".data, "require".data, "from".data]

/-- `/^[+-]\s*(import|require|from)\b/.test(content)` — no `m` flag, so the
    anchor is the start of the whole hunk text only. -/
def importFlag (cs : List Char) : Bool :=
  match cs with
  | c :: rest =>
    (c = '+' || c = '-') &&
    (let r := rest.dropWhile jsWs
     importKws.any fun kw => kw.isPrefixOf r && !(wordCharO ((r.drop kw.length).head?)))
  | [] => false

/-- The `type` ternary of `flushHunk`: the `hasAdditions`/`hasDeletions`
    flags the source updates line by line equal `any` over the accumulated
    lines (they are reset on every flush). -/
def hunkType (acc : List (List Char)) : DiffType :=
  if acc.any isAddLine && acc.any isDelLine then DiffType.modification
  else if acc.any isAddLine then DiffType.addition
  else DiffType.deletion

/-- The `metadata` object literal of `flushHunk`, over the joined content. -/
def hunkMeta (content : List Char) : ChunkMetadata :=
  { containsFunction := scanKws funcKws none content
    containsImportChange := importFlag content
    containsAuthLogic := scanKws authKwsDiff none (lcList content) }

/-- The chunk record `flushHunk` pushes. -/
def mkHunkChunk (filePath : String) (startLine : Nat) (acc : List (List Char)) : DiffChunk :=
  { filePath := filePath
    type := hunkType acc
    startLine := startLine
    endLine := startLine + acc.length - 1
    content := String.mk (joinCh '\n' acc)
    metadata := hunkMeta (joinCh '\n' acc) }

/-- `flushHunk` of `DiffEngine.parse`: close the accumulated hunk (if any)
    into a chunk. -/
def flushHunk (filePath : String) (startLine : Nat) (acc : List (List Char)) : List DiffChunk :=
  match acc with
  | [] => []
  | _ => [mkHunkChunk filePath startLine acc]

/-- The per-line loop of `DiffEngine.parse`: a hunk header flushes and
    re-anchors; other lines accumulate once a hunk is open
    (`currentStartLine > 0`). -/
def processLines (filePath : String) : List (List Char) → Nat → List (List Char) → List DiffChunk
  | [], curStart, acc => flushHunk filePath curStart acc
  | l :: rest, curStart, acc =>
    match hunkNewStart l with
    | some ns => flushHunk filePath curStart acc ++ processLines filePath rest ns []
    | none =>
      if curStart > 0 then processLines filePath rest curStart (acc ++ [l])
      else processLines filePath rest curStart acc

/-- One `diff --git` file block of `DiffEngine.parse`: the path is taken
    from the first line, then every line of the block runs through the
    accumulation loop. -/
def processBlock (block : List Char) : List DiffChunk :=
  match splitOnCh '\n' block with
  | [] => []
  | first :: rest =>
    match extractBPath first with
    | none => []
    | some pathChars => processLines (jsTrim (String.mk pathChars)) (first :: rest) 0 []

/-- `DiffEngine.parse`. -/
def parseDiff (diff : String) : List DiffChunk :=
  if jsTrim diff = "" then []
  else
    let blocks := (splitDG (diff.data.length + 1) true diff.data).filter (fun b => b ≠ [])
    (blocks.map processBlock).flatten

/-! ## The Risk Scorer (`RiskAnalyzer.analyze`) -/

structure RiskReport where
  filePath : String
  score : Nat
  level : String
  reasons : List String
deriving DecidableEq

/-- Counting matches of a global `\b(..|..)\b/gi` regex: at each position try
    the alternatives in order (at most one can match completely, since none
    is a prefix of another); on a match, resume after it. -/
def countKws (kws : List (List Char)) : Nat → Option Char → List Char → Nat
  | 0, _, _ => 0
  | _, _, [] => 0
  | fuel + 1, prev, c :: cs =>
    match kws.find? (fun kw => kwMatchAt kw prev (c :: cs)) with
    | some kw => 1 + countKws kws fuel kw.getLast? ((c :: cs).drop kw.length)
    | none => countKws kws fuel (some c) cs

/-- Alternatives of the `RiskAnalyzer` keyword regex
    `/\b(auth|token|password|credential|secret|jwt|oauth|session)\b/gi`
    (note: unlike the `DiffEngine` vocabulary, no `login`/`logout`). -/
def authKwsRisk : List (List Char) :=
  ["auth".data, "token".data, "password".data, "credential".data, "secret".data,
   "jwt".data, "oauth".data, "session".data]

/-- `(allContent.match(/\b(auth|...|session)\b/gi) ?? []).length`. -/
def countAuthMatches (content : String) : Nat :=
  countKws authKwsRisk (content.data.length + 1) none (lcList content.data)

/-- `/\/(auth|authentication|authorization|login|oauth)\//i.test(filePath)`. -/
def authDirTest (fp : String) : Bool :=
  ["/auth/", "/authentication/", "/authorization/", "/login/", "/oauth/"].any
    (fun w => hasInfixCI w fp)

/-- `/\.(env|secret|key|pem|cert)(\.|$)/i.test(filePath)`. -/
def sensitiveTest (fp : String) : Bool :=
  ["env", "secret", "key", "pem", "cert"].any (fun w =>
    hasInfixCI ("." ++ w ++ ".") fp || endsWithCI ("." ++ w) fp)

/-- `/\/(middleware|interceptor)\//i.test(filePath)`. -/
def middlewareTest (fp : String) : Bool :=
  hasInfixCI "/middleware/" fp || hasInfixCI "/interceptor/" fp

/-- `/(package\.json|package-lock\.json|yarn\.lock|requirements\.txt|Gemfile|go\.sum|pom\.xml)/i`. -/
def dependencyTest (fp : String) : Bool :=
  ["package.json", "package-lock.json", "yarn.lock", "requirements.txt",
   "gemfile", "go.sum", "pom.xml"].any (fun w => hasInfixCI w fp)

/-- `/\/(migrations?|schema|model)\//i.test(filePath) || /\.(sql|prisma|graphql)$/.test(filePath)`
    (the extension part is case-sensitive in the source). -/
def schemaTest (fp : String) : Bool :=
  (["/migration/", "/migrations/", "/schema/", "/model/"].any (fun w => hasInfixCI w fp)) ||
  ([".sql", ".prisma", ".graphql"].any (fun suf => endsWithL suf fp))

/-- `fileChunks.map(c => c.content).join('\n')`. -/
def allContentOf (fcs : List DiffChunk) : String :=
  String.intercalate "\n" (fcs.map (fun c => c.content))

/-- Removed-line count: chunks of type deletion/modification, counting lines
    starting with a dash (the source counts `---` lines too). -/
def fileDeletions (fcs : List DiffChunk) : Nat :=
  (((fcs.filter (fun c => c.type = DiffType.deletion || c.type = DiffType.modification)).map
    (fun c => ((splitOnCh '\n' c.content.data).filter (fun l => l.head? = some '-')).length)).sum)

/-- Sum of the five path-based rule contributions. -/
def pathPoints (fp : String) : Nat :=
  (if authDirTest fp then 30 else 0) + (if sensitiveTest fp then 25 else 0) +
  (if middlewareTest fp then 20 else 0) + (if dependencyTest fp then 20 else 0) +
  (if schemaTest fp then 15 else 0)

/-- Security-keyword-density contribution: `min(5 * count, 20)` when any
    keyword matched. -/
def keywordPoints (content : String) : Nat :=
  let c := countAuthMatches content
  if c > 0 then min (5 * c) 20 else 0

/-- Deletion-size contribution. -/
def deletionPoints (fcs : List DiffChunk) : Nat :=
  let d := fileDeletions fcs
  if d > 50 then 15 else if d > 20 then 8 else 0

/-- Import-churn contribution: `min(3 * count, 10)` when any chunk has the
    import-change flag. -/
def importChurnPoints (fcs : List DiffChunk) : Nat :=
  let n := (fcs.filter (fun c => c.metadata.containsImportChange)).length
  if n > 0 then min (3 * n) 10 else 0

/-- Function-churn contribution. -/
def functionChurnPoints (fcs : List DiffChunk) : Nat :=
  if (fcs.filter (fun c => c.metadata.containsFunction)).length > 3 then 10 else 0

/-- The uncapped per-file score: the rule contributions accumulated by the
    `score +=` steps of `RiskAnalyzer.analyze`, in source order. -/
def fileScoreRaw (fp : String) (fcs : List DiffChunk) : Nat :=
  pathPoints fp + keywordPoints (allContentOf fcs) + deletionPoints fcs +
  importChurnPoints fcs + functionChurnPoints fcs

/-- The reason strings accumulated by the `reasons.push` steps, in order. -/
def fileReasons (fp : String) (fcs : List DiffChunk) : List String :=
  (if authDirTest fp then ["File is in an authentication/authorization directory"] else []) ++
  (if sensitiveTest fp then ["File may contain sensitive credentials or certificates"] else []) ++
  (if middlewareTest fp then ["File is middleware — changes may affect request/response pipeline"] else []) ++
  (if dependencyTest fp then ["Dependency file changed — supply chain risk"] else []) ++
  (if schemaTest fp then ["Schema or migration change detected"] else []) ++
  (let c := countAuthMatches (allContentOf fcs)
   if c > 0 then ["Contains " ++ toString c ++ " auth-related keyword(s)"] else []) ++
  (let d := fileDeletions fcs
   if d > 50 then ["Large deletion: " ++ toString d ++ " lines removed"]
   else if d > 20 then ["Notable deletion: " ++ toString d ++ " lines removed"] else []) ++
  (let n := (fcs.filter (fun c => c.metadata.containsImportChange)).length
   if n > 0 then [toString n ++ " chunk(s) contain import/dependency changes"] else []) ++
  (let n := (fcs.filter (fun c => c.metadata.containsFunction)).length
   if n > 3 then [toString n ++ " function-level changes detected"] else [])

/-- `score >= 60 ? 'high' : score >= 30 ? 'medium' : 'low'`. -/
def riskLevelOf (score : Nat) : String :=
  if score ≥ 60 then "high" else if score ≥ 30 then "medium" else "low"

/-- One per-file report (score capped at 100, placeholder reason if none). -/
def mkRiskReport (fp : String) (fcs : List DiffChunk) : RiskReport :=
  let score := min (fileScoreRaw fp fcs) 100
  let rs := fileReasons fp fcs
  { filePath := fp, score := score, level := riskLevelOf score,
    reasons := if rs = [] then ["No significant risk factors identified"] else rs }

/-- One step of building the insertion-ordered `Map` grouping chunks by file. -/
def upsertChunk (m : List (String × List DiffChunk)) (c : DiffChunk) :
    List (String × List DiffChunk) :=
  if c.filePath ∈ m.map Prod.fst then
    m.map (fun p => if p.1 = c.filePath then (p.1, p.2 ++ [c]) else p)
  else m ++ [(c.filePath, [c])]

/-- `fileMap`: grouping by file path, first-seen key order (JS `Map`). -/
def groupByFile (chunks : List DiffChunk) : List (String × List DiffChunk) :=
  chunks.foldl upsertChunk []

/-- Stable insertion into a list sorted descending by `key`: the new element
    goes after all existing elements with an equal or larger key. -/
def insertDesc {α : Type} (key : α → Nat) (x : α) : List α → List α
  | [] => [x]
  | y :: ys => if key y < key x then x :: y :: ys else y :: insertDesc key x ys

/-- Stable descending sort by `key`; JS `sort((a, b) => key(b) - key(a))`
    is stable (ES2019) with the same ordering, so it computes exactly this. -/
def sortDescBy {α : Type} (key : α → Nat) (l : List α) : List α :=
  l.foldl (fun acc x => insertDesc key x acc) []

/-- The per-file reports in first-seen file order, before sorting. -/
def analyzeUnsorted (chunks : List DiffChunk) : List RiskReport :=
  (groupByFile chunks).map (fun p => mkRiskReport p.1 p.2)

/-- `RiskAnalyzer.analyze`. -/
def analyzeRisk (chunks : List DiffChunk) : List RiskReport :=
  sortDescBy (fun r => r.score) (analyzeUnsorted chunks)

/-! ## The Review Orchestrator (`ReviewEngine.reviewChunk`)

The backend call `this.copilot.ask(prompt, modelId)` is modelled by its
outcome (`Except.error msg` = the promise rejected with message `msg`);
the prompt text does not influence anything this development states.
`getModelName()` is modelled by the `modelName` argument.  The `suggestions`,
`summary` and `riskLevel` fields hold raw JS values (`Json`): the source
type-asserts the parsed JSON but never validates it at runtime. -/

inductive ReviewMode where
  | security : ReviewMode
  | performance : ReviewMode
  | cleanCode : ReviewMode
  | architecture : ReviewMode
  | testCoverage : ReviewMode
  | general : ReviewMode
deriving DecidableEq

structure ReviewResult where
  chunkId : String
  filePath : String
  mode : ReviewMode
  suggestions : Json
  summary : Json
  riskLevel : Json
  modelUsed : String

/-- The template-literal chunk key. -/
def chunkIdOf (chunk : DiffChunk) : String :=
  chunk.filePath ++ ":" ++ toString chunk.startLine ++ "-" ++ toString chunk.endLine

/-- The catch-all decode fallback: single info suggestion carrying the raw
    backend text verbatim. -/
def reviewFallback (chunk : DiffChunk) (mode : ReviewMode) (raw : String)
    (modelName : String) : ReviewResult :=
  { chunkId := chunkIdOf chunk, filePath := chunk.filePath, mode := mode,
    suggestions := Json.arr [Json.obj
      [("line", Json.num (chunk.startLine : Int)), ("severity", Json.str "info"),
       ("message", Json.str raw)]],
    summary := Json.str "Review completed (unstructured response)",
    riskLevel := Json.str "low", modelUsed := modelName }

/-- `ReviewEngine.reviewChunk`.  A parsed top-level `null` reaches the same
    catch block as a `JSON.parse` throw (property access on `null` throws). -/
def reviewChunk (chunk : DiffChunk) (mode : ReviewMode)
    (backendResult : Except String String) (modelName : String) : ReviewResult :=
  match backendResult with
  | Except.error msg =>
    { chunkId := chunkIdOf chunk, filePath := chunk.filePath, mode := mode,
      suggestions := Json.arr [],
      summary := Json.str ("Copilot unavailable: " ++ msg),
      riskLevel := Json.str "low", modelUsed := modelName }
  | Except.ok rawResponse =>
    match parseJson (stripFences rawResponse) with
    | none => reviewFallback chunk mode rawResponse modelName
    | some Json.null => reviewFallback chunk mode rawResponse modelName
    | some parsed =>
      { chunkId := chunkIdOf chunk, filePath := chunk.filePath, mode := mode,
        suggestions := nullishOr (jsGet parsed "suggestions") (Json.arr []),
        summary := nullishOr (jsGet parsed "summary") (Json.str ""),
        riskLevel := nullishOr (jsGet parsed "riskLevel") (Json.str "low"),
        modelUsed := modelName }

/-! ## The Deep-Analysis Aggregator and Multi-Model Comparator
(`DeepAnalysisEngine.analyze`, `DeepAnalysisEngine.compareWithModels`)

As with `reviewChunk`, the backend call is modelled by its outcome and the
prompt built from the diff summary does not influence any stated property.
`analyze` maps the parsed `categories`/`recommendations` arrays through
normalising object literals; `compareWithModels` passes them through raw.
The `categories`/`recommendations` fields therefore hold either a typed
(normalised) list or a raw JS value, matching the two code paths. -/

structure ChangedFile where
  filePath : String
  status : String
  additions : Nat
  deletions : Nat
deriving DecidableEq

structure PRMetrics where
  totalFilesChanged : Nat
  totalAdditions : Nat
  totalDeletions : Nat
  avgComplexityPerFile : Nat
  hotspotFiles : List String
  testCoverage : String
deriving DecidableEq

/-- One step of the `fileSizes` map: add this chunk's line count. -/
def upsertSize (m : List (String × Nat)) (c : DiffChunk) : List (String × Nat) :=
  let n := (splitOnCh '\n' c.content.data).length
  if c.filePath ∈ m.map Prod.fst then
    m.map (fun p => if p.1 = c.filePath then (p.1, p.2 + n) else p)
  else m ++ [(c.filePath, n)]

/-- `/\.(test|spec)\.(ts|tsx|js|jsx)$/.test(f.filePath) || /\/tests?\//.test(f.filePath)`. -/
def isTestFile (fp : String) : Bool :=
  ([".test.ts", ".test.tsx", ".test.js", ".test.jsx",
    ".spec.ts", ".spec.tsx", ".spec.js", ".spec.jsx"].any (fun suf => endsWithL suf fp)) ||
  hasInfix "/test/".data fp.data || hasInfix "/tests/".data fp.data

/-- `Math.round(a / b)` for natural `a` and positive `b`, computed exactly
    (round half up). -/
def roundDiv (a b : Nat) : Nat := (2 * a + b) / (2 * b)

/-- `DeepAnalysisEngine.computeMetrics`.  The float comparisons
    `ratio >= 0.8` / `ratio >= 0.5` are modelled exactly over rationals by
    cross-multiplication. -/
def computeMetrics (chunks : List DiffChunk) (changedFiles : List ChangedFile) : PRMetrics :=
  let totalAdditions := (changedFiles.map (fun f => f.additions)).sum
  let totalDeletions := (changedFiles.map (fun f => f.deletions)).sum
  let fileSizes := chunks.foldl upsertSize []
  let sizes := fileSizes.map Prod.snd
  let avgComplexity := if sizes.length > 0 then roundDiv sizes.sum sizes.length else 0
  let hotspotFiles := ((sortDescBy Prod.snd fileSizes).take 5).map Prod.fst
  let hasTestFiles := changedFiles.any (fun f => isTestFile f.filePath)
  let testFileCount := (changedFiles.filter (fun f => isTestFile f.filePath)).length
  let nonTestCount := changedFiles.length - testFileCount
  let testCoverage :=
    if hasTestFiles then
      if nonTestCount > 0 then
        if 5 * testFileCount ≥ 4 * nonTestCount then "excellent"
        else if 2 * testFileCount ≥ nonTestCount then "good"
        else "partial"
      else "excellent"
    else "none"
  { totalFilesChanged := changedFiles.length, totalAdditions := totalAdditions,
    totalDeletions := totalDeletions, avgComplexityPerFile := avgComplexity,
    hotspotFiles := hotspotFiles, testCoverage := testCoverage }

/-- A category normalised by `analyze`'s mapping; `name` keeps the raw
    property value (`none` = the backend omitted it). -/
structure AnalysisCategory where
  name : Option Json
  score : Option Int
  findings : Json
  severity : Json

/-- A recommendation normalised by `analyze`'s mapping. -/
structure Recommendation where
  priority : Json
  title : Json
  description : Json
  filePath : Option Json
  lineRange : Option Json

inductive CatsField where
  | typed (cats : List AnalysisCategory) : CatsField
  | raw (j : Json) : CatsField

inductive RecsField where
  | typed (recs : List Recommendation) : RecsField
  | raw (j : Json) : RecsField

structure InDepthAnalysis where
  prNumber : Nat
  overallSummary : Json
  complexityScore : Option Int
  qualityGrade : String
  categories : CatsField
  recommendations : RecsField
  metrics : PRMetrics
  modelUsed : String

def validGrades : List String := ["A", "B", "C", "D", "F"]

/-- `DeepAnalysisEngine.validateGrade` on `(grade ?? 'C').toUpperCase()`:
    `none` models the `TypeError` thrown when the raw value is neither a
    string nor null/undefined. -/
def validateGrade (o : Option Json) : Option String :=
  match o with
  | none => some "C"
  | some Json.null => some "C"
  | some (Json.str s) => some (if ucString s ∈ validGrades then ucString s else "C")
  | some _ => none

/-- `(v ?? []).map(...)` viewed at the array level: `none` models the
    `TypeError` thrown when a present non-null value has no `.map`. -/
def arrOrThrow (o : Option Json) : Option (List Json) :=
  match o with
  | none => some []
  | some Json.null => some []
  | some (Json.arr xs) => some xs
  | some _ => none

/-- The object literal `analyze` builds per category; property access on a
    `null` element throws (`none`). -/
def decodeCategory (c : Json) : Option AnalysisCategory :=
  match c with
  | Json.null => none
  | _ => some { name := jsGet c "name",
                score := clamp100 (numOr (jsGet c "score") 50),
                findings := nullishOr (jsGet c "findings") (Json.arr []),
                severity := nullishOr (jsGet c "severity") (Json.str "acceptable") }

/-- The object literal `analyze` builds per recommendation. -/
def decodeRecommendation (r : Json) : Option Recommendation :=
  match r with
  | Json.null => none
  | _ => some { priority := nullishOr (jsGet r "priority") (Json.str "medium"),
                title := nullishOr (jsGet r "title") (Json.str "Recommendation"),
                description := nullishOr (jsGet r "description") (Json.str ""),
                filePath := jsGet r "filePath", lineRange := jsGet r "lineRange" }

/-- The fields `analyze` extracts inside its `try` block after a successful
    `JSON.parse`; `none` models any throw inside the block. -/
structure DeepDecoded where
  overallSummary : Json
  complexityScore : Option Int
  qualityGrade : String
  categories : List AnalysisCategory
  recommendations : List Recommendation

/-- The non-null part of `decodeDeepSuccess` (factored out so that the
    throw-chain can be reasoned about uniformly). -/
def decodeDeepFields (parsed : Json) : Option DeepDecoded :=
  match validateGrade (jsGet parsed "qualityGrade") with
    | none => none
    | some grade =>
      match arrOrThrow (jsGet parsed "categories") with
      | none => none
      | some cats =>
        match cats.mapM decodeCategory with
        | none => none
        | some cats2 =>
          match arrOrThrow (jsGet parsed "recommendations") with
          | none => none
          | some recs =>
            match recs.mapM decodeRecommendation with
            | none => none
            | some recs2 =>
              some { overallSummary :=
                       nullishOr (jsGet parsed "overallSummary") (Json.str "Analysis completed."),
                     complexityScore := clamp100 (numOr (jsGet parsed "complexityScore") 50),
                     qualityGrade := grade, categories := cats2, recommendations := recs2 }

def decodeDeepSuccess (parsed : Json) : Option DeepDecoded :=
  match parsed with
  | Json.null => none
  | _ => decodeDeepFields parsed

/-- `DeepAnalysisEngine.fallbackAnalysis`. -/
def fallbackAnalysis (prNumber : Nat) (metrics : PRMetrics) (error : String) : InDepthAnalysis :=
  { prNumber := prNumber,
    overallSummary := Json.str ("Unable to complete deep analysis: " ++ error),
    complexityScore := some 0, qualityGrade := "C", categories := CatsField.typed [],
    recommendations := RecsField.typed [], metrics := metrics, modelUsed := "unknown" }

/-- The catch branch of `analyze` after `copilot.ask` succeeded:
    first 500 characters of the raw text as summary. -/
def degradedAnalysis (prNumber : Nat) (metrics : PRMetrics) (raw : String)
    (modelName : String) : InDepthAnalysis :=
  { prNumber := prNumber, overallSummary := Json.str (String.mk (raw.data.take 500)),
    complexityScore := some 50, qualityGrade := "C", categories := CatsField.typed [],
    recommendations := RecsField.typed [], metrics := metrics, modelUsed := modelName }

/-- `DeepAnalysisEngine.analyze`. -/
def deepAnalyze (prNumber : Nat) (chunks : List DiffChunk) (changedFiles : List ChangedFile)
    (backendResult : Except String String) (modelName : String) : InDepthAnalysis :=
  let metrics := computeMetrics chunks changedFiles
  match backendResult with
  | Except.error msg => fallbackAnalysis prNumber metrics msg
  | Except.ok rawResponse =>
    match parseJson (stripFences rawResponse) with
    | none => degradedAnalysis prNumber metrics rawResponse modelName
    | some parsed =>
      match decodeDeepSuccess parsed with
      | none => degradedAnalysis prNumber metrics rawResponse modelName
      | some d =>
        { prNumber := prNumber, overallSummary := d.overallSummary,
          complexityScore := d.complexityScore, qualityGrade := d.qualityGrade,
          categories := CatsField.typed d.categories,
          recommendations := RecsField.typed d.recommendations,
          metrics := metrics, modelUsed := modelName }

/-- The fields `compareWithModels` extracts after a successful `JSON.parse`:
    `categories`/`recommendations` are passed through raw, with only the
    nullish default. -/
structure CompareDecoded where
  overallSummary : Json
  complexityScore : Option Int
  qualityGrade : String
  categories : Json
  recommendations : Json

/-- The non-null part of `decodeCompare`. -/
def decodeCompareFields (parsed : Json) : Option CompareDecoded :=
  match validateGrade (jsGet parsed "qualityGrade") with
    | none => none
    | some grade =>
      some { overallSummary :=
               nullishOr (jsGet parsed "overallSummary") (Json.str "Analysis completed."),
             complexityScore := clamp100 (numOr (jsGet parsed "complexityScore") 50),
             qualityGrade := grade,
             categories := nullishOr (jsGet parsed "categories") (Json.arr []),
             recommendations := nullishOr (jsGet parsed "recommendations") (Json.arr []) }

def decodeCompare (parsed : Json) : Option CompareDecoded :=
  match parsed with
  | Json.null => none
  | _ => decodeCompareFields parsed

/-- One iteration of the `compareWithModels` loop, over the outcome of that
    iteration's backend call; all failures inside the iteration reach its
    catch (`Model <id> failed`). -/
def compareOne (prNumber : Nat) (metrics : PRMetrics) (modelId : String)
    (res : Except String String) : InDepthAnalysis :=
  match res with
  | Except.error _ => fallbackAnalysis prNumber metrics ("Model " ++ modelId ++ " failed")
  | Except.ok raw =>
    match parseJson (stripFences raw) with
    | none => fallbackAnalysis prNumber metrics ("Model " ++ modelId ++ " failed")
    | some parsed =>
      match decodeCompare parsed with
      | none => fallbackAnalysis prNumber metrics ("Model " ++ modelId ++ " failed")
      | some d =>
        { prNumber := prNumber, overallSummary := d.overallSummary,
          complexityScore := d.complexityScore, qualityGrade := d.qualityGrade,
          categories := CatsField.raw d.categories,
          recommendations := RecsField.raw d.recommendations,
          metrics := metrics, modelUsed := modelId }

/-- `DeepAnalysisEngine.compareWithModels`: one sequential pass per model id;
    `ask` maps a model id to that backend call's outcome (the metrics are
    recomputed in every iteration, as in the source). -/
def compareWithModels (prNumber : Nat) (chunks : List DiffChunk)
    (changedFiles : List ChangedFile) (modelIds : List String)
    (ask : String → Except String String) : List InDepthAnalysis :=
  modelIds.map (fun modelId =>
    compareOne prNumber (computeMetrics chunks changedFiles) modelId (ask modelId))

/-! ## Claim theorems -/

/-- A concrete chunk used by witnesses. -/
def demoChunk : DiffChunk :=
  { filePath := "src/app.ts", type := DiffType.addition, startLine := 3, endLine := 4,
    content := "+x", metadata := ⟨false, false, false⟩ }

/-- C1: `reviewChunk` never raises an error to its caller: for every chunk,
    review mode and backend behaviour it returns a `ReviewResult` (the model
    is a total function of the backend outcome), and whenever the backend
    call itself fails with message `msg`, the result has an empty suggestions
    list, riskLevel "low", and a summary text containing `msg`. -/
theorem reviewChunk_total_and_backend_failure
    (chunk : DiffChunk) (mode : ReviewMode) (br : Except String String) (name msg : String)
    (h : br = Except.error msg) :
    (∃ r : ReviewResult, reviewChunk chunk mode br name = r) ∧
    (reviewChunk chunk mode br name).suggestions = Json.arr [] ∧
    (reviewChunk chunk mode br name).riskLevel = Json.str "low" ∧
    ∃ pre post, (reviewChunk chunk mode br name).summary = Json.str (pre ++ msg ++ post) := by
  subst h
  refine ⟨⟨_, rfl⟩, rfl, rfl, "Copilot unavailable: ", "", ?_⟩
  simp [reviewChunk]

theorem reviewChunk_total_and_backend_failure_witness :
    (reviewChunk demoChunk ReviewMode.general (Except.error "backend down") "gpt").suggestions
      = Json.arr [] ∧
    (reviewChunk demoChunk ReviewMode.general (Except.error "backend down") "gpt").riskLevel
      = Json.str "low" ∧
    ∃ pre post,
      (reviewChunk demoChunk ReviewMode.general (Except.error "backend down") "gpt").summary
        = Json.str (pre ++ "backend down" ++ post) :=
  (reviewChunk_total_and_backend_failure demoChunk ReviewMode.general
    (Except.error "backend down") "gpt" "backend down" rfl).2

/-- C8 counterexample: the backend response "42" (a well-formed JSON number,
    hence not parseable as the required JSON *object*) does not produce the
    claimed single-suggestion fallback: `JSON.parse` succeeds, every field
    access yields `undefined`, and the result has empty suggestions and
    summary "" instead. -/
theorem reviewChunk_nonobject_counterexample :
    parseJson (stripFences "42") = some (Json.num 42) ∧
    (∀ fields, parseJson (stripFences "42") ≠ some (Json.obj fields)) ∧
    (reviewChunk demoChunk ReviewMode.general (Except.ok "42") "m").suggestions = Json.arr [] ∧
    (reviewChunk demoChunk ReviewMode.general (Except.ok "42") "m").summary = Json.str "" ∧
    (reviewChunk demoChunk ReviewMode.general (Except.ok "42") "m").riskLevel = Json.str "low" := by
  refine ⟨rfl, ?_, rfl, rfl, rfl⟩
  intro fields h
  rw [show parseJson (stripFences "42") = some (Json.num 42) from rfl] at h
  simp at h

/-- C8 amended: the single-suggestion fallback (info finding at the chunk's
    start line, message = the verbatim raw text, summary "Review completed
    (unstructured response)", riskLevel "low") is returned exactly when
    `JSON.parse` fails on the stripped response, or parses it to `null`
    (whose field access throws into the same catch); a parseable non-null,
    non-object value instead yields empty suggestions and summary "". -/
theorem reviewChunk_decode_fallback (chunk : DiffChunk) (mode : ReviewMode) (s name : String)
    (h : parseJson (stripFences s) = none ∨ parseJson (stripFences s) = some Json.null) :
    reviewChunk chunk mode (Except.ok s) name = reviewFallback chunk mode s name ∧
    (reviewFallback chunk mode s name).suggestions =
      Json.arr [Json.obj [("line", Json.num (chunk.startLine : Int)), ("severity", Json.str "info"),
                          ("message", Json.str s)]] ∧
    (reviewFallback chunk mode s name).summary
      = Json.str "Review completed (unstructured response)" ∧
    (reviewFallback chunk mode s name).riskLevel = Json.str "low" := by
  rcases h with h | h <;> exact ⟨by simp [reviewChunk, h], rfl, rfl, rfl⟩

theorem reviewChunk_decode_fallback_witness :
    reviewChunk demoChunk ReviewMode.general (Except.ok "not json at all") "m"
      = reviewFallback demoChunk ReviewMode.general "not json at all" "m" ∧
    (reviewFallback demoChunk ReviewMode.general "not json at all" "m").suggestions =
      Json.arr [Json.obj [("line", Json.num (demoChunk.startLine : Int)),
                          ("severity", Json.str "info"),
                          ("message", Json.str "not json at all")]] ∧
    (reviewFallback demoChunk ReviewMode.general "not json at all" "m").summary
      = Json.str "Review completed (unstructured response)" ∧
    (reviewFallback demoChunk ReviewMode.general "not json at all" "m").riskLevel
      = Json.str "low" :=
  reviewChunk_decode_fallback demoChunk ReviewMode.general "not json at all" "m" (Or.inl rfl)

/-- A suggestion object conforming to the schema `reviewChunk`'s prompt
    demands: `line` a number, `severity` one of info/warning/error,
    `message` a string, `patch` optional string. -/
def conformsSuggestion (j : Json) : Bool :=
  match j with
  | Json.obj fs =>
    (match lookupLast fs "line" with | some (Json.num _) => true | _ => false) &&
    (match lookupLast fs "severity" with
     | some (Json.str sev) => sev = "info" || sev = "warning" || sev = "error"
     | _ => false) &&
    (match lookupLast fs "message" with | some (Json.str _) => true | _ => false) &&
    (match lookupLast fs "patch" with
     | none => true | some (Json.str _) => true | _ => false)
  | _ => false

/-- C9 (round-trip): when the backend response decodes (after fence
    stripping and trimming) to a well-formed JSON object whose `summary`,
    `riskLevel` and `suggestions` fields conform to the required schema,
    the returned `ReviewResult` carries those three fields exactly. -/
theorem reviewChunk_roundtrip (chunk : DiffChunk) (mode : ReviewMode)
    (s name smry rl : String) (fields : List (String × Json)) (suggs : List Json)
    (hp : parseJson (stripFences s) = some (Json.obj fields))
    (hs : lookupLast fields "summary" = some (Json.str smry))
    (hr : lookupLast fields "riskLevel" = some (Json.str rl))
    (_hrv : rl = "low" ∨ rl = "medium" ∨ rl = "high")
    (hg : lookupLast fields "suggestions" = some (Json.arr suggs))
    (_hc : ∀ j ∈ suggs, conformsSuggestion j = true) :
    (reviewChunk chunk mode (Except.ok s) name).summary = Json.str smry ∧
    (reviewChunk chunk mode (Except.ok s) name).riskLevel = Json.str rl ∧
    (reviewChunk chunk mode (Except.ok s) name).suggestions = Json.arr suggs := by
  simp only [reviewChunk, hp]
  exact ⟨by simp [jsGet, hs, nullishOr], by simp [jsGet, hr, nullishOr],
         by simp [jsGet, hg, nullishOr]⟩

/-- The concrete conforming response used by the round-trip witness. -/
def rtResponse : String :=
  "\x7b\"summary\": \"Looks fine\", \"riskLevel\": \"medium\", \"suggestions\": [\x7b\"line\": 3, \"severity\": \"warning\", \"message\": \"check bounds\"\x7d]\x7d"

def rtSugg : Json :=
  Json.obj [("line", Json.num 3), ("severity", Json.str "warning"),
            ("message", Json.str "check bounds")]

def rtFields : List (String × Json) :=
  [("summary", Json.str "Looks fine"), ("riskLevel", Json.str "medium"),
   ("suggestions", Json.arr [rtSugg])]

set_option maxRecDepth 100000 in
theorem reviewChunk_roundtrip_witness :
    (reviewChunk demoChunk ReviewMode.general (Except.ok rtResponse) "m").summary
      = Json.str "Looks fine" ∧
    (reviewChunk demoChunk ReviewMode.general (Except.ok rtResponse) "m").riskLevel
      = Json.str "medium" ∧
    (reviewChunk demoChunk ReviewMode.general (Except.ok rtResponse) "m").suggestions
      = Json.arr [rtSugg] :=
  reviewChunk_roundtrip demoChunk ReviewMode.general rtResponse "m" "Looks fine" "medium"
    rtFields [rtSugg] rfl rfl rfl (Or.inr (Or.inl rfl)) rfl
    (by intro j hj; rw [List.mem_singleton] at hj; subst hj; rfl)

/-- C10: when the changed-file list is non-empty and every changed file is
    test-like, the non-test count is zero, the ratio is treated as 1, and
    the derived testCoverage is "excellent". -/
theorem computeMetrics_all_tests_excellent (chunks : List DiffChunk)
    (changedFiles : List ChangedFile) (hne : changedFiles ≠ [])
    (hall : ∀ f ∈ changedFiles, isTestFile f.filePath = true) :
    (computeMetrics chunks changedFiles).testCoverage = "excellent" := by
  have hfilter : changedFiles.filter (fun f => isTestFile f.filePath) = changedFiles :=
    List.filter_eq_self.mpr hall
  have hany : changedFiles.any (fun f => isTestFile f.filePath) = true := by
    rcases changedFiles with _ | ⟨f, fs⟩
    · exact absurd rfl hne
    · simp [hall f (List.mem_cons_self f fs)]
  simp [computeMetrics, hfilter, hany]

theorem computeMetrics_all_tests_excellent_witness :
    (computeMetrics [] [⟨"src/util.test.ts", "modified", 5, 1⟩,
                        ⟨"src/tests/helper.ts", "added", 2, 0⟩]).testCoverage = "excellent" :=
  computeMetrics_all_tests_excellent [] _ (by simp) (by decide)

/-- Any non-NaN result of the clamping step lies in `[0, 100]`. -/
theorem clamp100_range (o : Option Int) (x : Int) (h : clamp100 o = some x) :
    0 ≤ x ∧ x ≤ 100 := by
  rcases o with _ | n
  · simp [clamp100] at h
  · simp [clamp100] at h
    subst h
    exact ⟨le_min (by norm_num) (le_max_left 0 n), min_le_left 100 _⟩

/-- `validateGrade` only ever returns one of the five grades. -/
theorem validateGrade_mem (o : Option Json) (g : String) (h : validateGrade o = some g) :
    g ∈ validGrades := by
  rcases o with _ | j
  · simp [validateGrade] at h
    simp [← h, validGrades]
  · rcases j with _ | b | n | s | xs | fs <;> simp [validateGrade] at h
    · simp [← h, validGrades]
    · split at h
      · next hm => rw [← h]; exact hm
      · simp [← h, validGrades]

/-- Successful `mapM` over `Option`: every output element is the image of
    some input element. -/
theorem mapM_option_mem {α β : Type} (f : α → Option β) :
    ∀ (l : List α) (l2 : List β), l.mapM f = some l2 → ∀ b ∈ l2, ∃ a, f a = some b := by
  intro l
  induction l with
  | nil =>
    intro l2 h b hb
    simp only [List.mapM_nil, pure, Option.some.injEq] at h
    subst h
    simp at hb
  | cons a t ih =>
    intro l2 h b hb
    rw [List.mapM_cons] at h
    rcases ha : f a with _ | b0 <;> rw [ha] at h
    · simp at h
    · simp only [Option.bind_eq_bind, Option.some_bind] at h
      rcases ht : t.mapM f with _ | bs <;> rw [ht] at h
      · simp at h
      · simp only [Option.some_bind, pure, Option.some.injEq] at h
        subst h
        rcases List.mem_cons.mp hb with rfl | hb2
        · exact ⟨a, ha⟩
        · exact ih bs ht b hb2

/-- `decodeDeepSuccess` succeeds exactly via `decodeDeepFields`. -/
theorem decodeDeepSuccess_eq_fields (parsed : Json) (d : DeepDecoded)
    (h : decodeDeepSuccess parsed = some d) : decodeDeepFields parsed = some d := by
  cases parsed with
  | null => exact absurd h (by simp [decodeDeepSuccess])
  | bool b => exact h
  | num n => exact h
  | str s => exact h
  | arr xs => exact h
  | obj fs => exact h

/-- Shape of a successful `decodeDeepFields`: the grade comes from
    `validateGrade`, the complexity score from the clamping step, and every
    category from `decodeCategory`. -/
theorem decodeDeepFields_props (parsed : Json) (d : DeepDecoded)
    (h : decodeDeepFields parsed = some d) :
    (∃ g, validateGrade (jsGet parsed "qualityGrade") = some g ∧ d.qualityGrade = g) ∧
    d.complexityScore = clamp100 (numOr (jsGet parsed "complexityScore") 50) ∧
    (∀ cat ∈ d.categories, ∃ c, decodeCategory c = some cat) := by
  unfold decodeDeepFields at h
  split at h
  · exact Option.noConfusion h
  next g hg =>
    split at h
    · exact Option.noConfusion h
    next cats hcats =>
      split at h
      · exact Option.noConfusion h
      next cats2 hcats2 =>
        split at h
        · exact Option.noConfusion h
        next recs hrecs =>
          split at h
          · exact Option.noConfusion h
          next recs2 hrecs2 =>
            injection h with h2
            subst h2
            exact ⟨⟨g, hg, rfl⟩, rfl, fun cat hcat =>
              mapM_option_mem decodeCategory cats cats2 hcats2 cat hcat⟩

/-- Every normalised category score is the clamping of the raw `score`. -/
theorem decodeCategory_score (c : Json) (cat : AnalysisCategory)
    (h : decodeCategory c = some cat) :
    cat.score = clamp100 (numOr (jsGet c "score") 50) := by
  cases c with
  | null => exact absurd h (by simp [decodeCategory])
  | bool b => injection h with h2; subst h2; rfl
  | num n => injection h with h2; subst h2; rfl
  | str s => injection h with h2; subst h2; rfl
  | arr xs => injection h with h2; subst h2; rfl
  | obj fs => injection h with h2; subst h2; rfl

/-- `decodeCompare` succeeds exactly via `decodeCompareFields`. -/
theorem decodeCompare_eq_fields (parsed : Json) (d : CompareDecoded)
    (h : decodeCompare parsed = some d) : decodeCompareFields parsed = some d := by
  cases parsed with
  | null => exact absurd h (by simp [decodeCompare])
  | bool b => exact h
  | num n => exact h
  | str s => exact h
  | arr xs => exact h
  | obj fs => exact h

theorem decodeCompareFields_props (parsed : Json) (d : CompareDecoded)
    (h : decodeCompareFields parsed = some d) :
    (∃ g, validateGrade (jsGet parsed "qualityGrade") = some g ∧ d.qualityGrade = g) ∧
    d.complexityScore = clamp100 (numOr (jsGet parsed "complexityScore") 50) := by
  unfold decodeCompareFields at h
  split at h
  · exact Option.noConfusion h
  next g hg =>
    injection h with h2
    subst h2
    exact ⟨⟨g, hg, rfl⟩, rfl⟩

/-- Every report of one comparator iteration has an in-range (or NaN)
    complexity score and a valid grade, on both the fallback and success
    paths. -/
theorem compareOne_props (prNumber : Nat) (metrics : PRMetrics) (modelId : String)
    (res : Except String String) :
    (∀ x, (compareOne prNumber metrics modelId res).complexityScore = some x →
       0 ≤ x ∧ x ≤ 100) ∧
    (compareOne prNumber metrics modelId res).qualityGrade ∈ validGrades := by
  have hfb : ∀ e, (∀ x, (fallbackAnalysis prNumber metrics e).complexityScore = some x →
      0 ≤ x ∧ x ≤ 100) ∧ (fallbackAnalysis prNumber metrics e).qualityGrade ∈ validGrades := by
    intro e
    constructor
    · intro x hx
      injection hx with h2
      subst h2
      norm_num
    · simp [fallbackAnalysis, validGrades]
  cases res with
  | error msg => exact hfb _
  | ok raw =>
    simp only [compareOne]
    cases hp : parseJson (stripFences raw) with
    | none => exact hfb _
    | some parsed =>
      cases hd : decodeCompare parsed with
      | none => simp only [hd]; exact hfb _
      | some d =>
        simp only [hd]
        obtain ⟨⟨g, hg, hgq⟩, hcs⟩ :=
          decodeCompareFields_props parsed d (decodeCompare_eq_fields parsed d hd)
        constructor
        · intro x hx
          rw [hcs] at hx
          exact clamp100_range _ x hx
        · simpa only [hgq] using validateGrade_mem _ g hg

/-- C2 amended: in `analyze` (flows through `decodeDeepSuccess`), every
    successfully decoded report has its complexityScore and every normalised
    category score clamped into [0,100] whenever they are numbers (a NaN
    produced by coercing a non-numeric backend value is outside [0,100] and
    outside this claim's "numeric values" scope), and qualityGrade is one of
    A/B/C/D/F, defaulting to "C" when the backend's value is missing, null,
    or an invalid string.  In `compareWithModels`, complexityScore is
    likewise clamped and qualityGrade validated — but the `categories` list
    is passed through raw, without any clamping (see the counterexample). -/
theorem deep_report_clamping :
    (∀ parsed d, decodeDeepSuccess parsed = some d →
       (∀ x, d.complexityScore = some x → 0 ≤ x ∧ x ≤ 100) ∧
       d.qualityGrade ∈ validGrades ∧
       (∀ cat ∈ d.categories, ∀ x, cat.score = some x → 0 ≤ x ∧ x ≤ 100) ∧
       ((jsGet parsed "qualityGrade" = none ∨ jsGet parsed "qualityGrade" = some Json.null) →
         d.qualityGrade = "C") ∧
       (∀ g, jsGet parsed "qualityGrade" = some (Json.str g) → ucString g ∉ validGrades →
         d.qualityGrade = "C")) ∧
    (∀ pr chunks cfs mids ask rep, rep ∈ compareWithModels pr chunks cfs mids ask →
       (∀ x, rep.complexityScore = some x → 0 ≤ x ∧ x ≤ 100) ∧
       rep.qualityGrade ∈ validGrades) := by
  constructor
  · intro parsed d h
    obtain ⟨⟨g, hg, hgq⟩, hcs, hcats⟩ :=
      decodeDeepFields_props parsed d (decodeDeepSuccess_eq_fields parsed d h)
    refine ⟨?_, ?_, ?_, ?_, ?_⟩
    · intro x hx
      rw [hcs] at hx
      exact clamp100_range _ x hx
    · simpa only [hgq] using validateGrade_mem _ g hg
    · intro cat hcat x hx
      obtain ⟨c, hc⟩ := hcats cat hcat
      rw [decodeCategory_score c cat hc] at hx
      exact clamp100_range _ x hx
    · intro hor
      rcases hor with h0 | h0 <;> rw [h0] at hg <;>
        simp only [validateGrade, Option.some.injEq] at hg <;> rw [hgq, ← hg]
    · intro g2 hstr hninv
      rw [hstr] at hg
      simp only [validateGrade, if_neg hninv, Option.some.injEq] at hg
      rw [hgq, ← hg]
  · intro pr chunks cfs mids ask rep hrep
    unfold compareWithModels at hrep
    obtain ⟨mid, _, heq⟩ := List.mem_map.mp hrep
    rw [← heq]
    exact compareOne_props pr (computeMetrics chunks cfs) mid (ask mid)

/-- The backend response exhibiting the missing clamp in the comparator. -/
def cmpXResponse : String :=
  "\x7b\"categories\":[\x7b\"name\":\"Security\",\"score\":500\x7d]\x7d"

/-- C2 counterexample: a comparator run whose backend returns a category
    score of 500 produces, from a successfully decoded response, a report
    whose (raw, unclamped) category score is 500 — outside [0,100]. -/
theorem compare_unclamped_category_counterexample :
    (compareWithModels 1 [] [] ["m1"] (fun _ => Except.ok cmpXResponse)).map
      (fun r => r.categories) =
      [CatsField.raw (Json.arr
        [Json.obj [("name", Json.str "Security"), ("score", Json.num 500)]])] ∧
    ¬ ((500 : Int) ≤ 100) := ⟨rfl, by norm_num⟩

/-- The parsed backend object used by the clamping witness (out-of-range
    score 500, lowercase grade "b"). -/
def parsedWitObj : Json :=
  Json.obj [("complexityScore", Json.num 500), ("qualityGrade", Json.str "b"),
            ("categories", Json.arr
              [Json.obj [("name", Json.str "Security"), ("score", Json.num 500)]])]

/-- Its successful decode: both scores clamped to 100, grade validated. -/
def dWit : DeepDecoded :=
  { overallSummary := Json.str "Analysis completed.", complexityScore := some 100,
    qualityGrade := "B",
    categories := [{ name := some (Json.str "Security"), score := some 100,
                     findings := Json.arr [], severity := Json.str "acceptable" }],
    recommendations := [] }

theorem deep_report_clamping_witness :
    (∀ x, dWit.complexityScore = some x → 0 ≤ x ∧ x ≤ 100) ∧
    dWit.qualityGrade ∈ validGrades ∧
    (∀ rep ∈ compareWithModels 1 [] [] ["m1"] (fun _ => Except.ok cmpXResponse),
       rep.qualityGrade ∈ validGrades) := by
  have h1 := deep_report_clamping.1 parsedWitObj dWit rfl
  exact ⟨h1.1, h1.2.1,
    fun rep hrep =>
      (deep_report_clamping.2 1 [] [] ["m1"] (fun _ => Except.ok cmpXResponse) rep hrep).2⟩

/-! ### Stable descending sort: ordering, membership and stability -/

theorem mem_insertDesc {α : Type} (key : α → Nat) (x a : α) :
    ∀ l : List α, a ∈ insertDesc key x l ↔ a = x ∨ a ∈ l := by
  intro l
  induction l with
  | nil => simp [insertDesc]
  | cons y ys ih =>
    simp only [insertDesc]
    split
    · simp [List.mem_cons]
    · simp only [List.mem_cons, ih]
      tauto

theorem insertDesc_sorted {α : Type} (key : α → Nat) (x : α) :
    ∀ l : List α, l.Pairwise (fun a b => key b ≤ key a) →
      (insertDesc key x l).Pairwise (fun a b => key b ≤ key a) := by
  intro l
  induction l with
  | nil => intro _; simp [insertDesc]
  | cons y ys ih =>
    intro hp
    rw [List.pairwise_cons] at hp
    obtain ⟨hy, hys⟩ := hp
    simp only [insertDesc]
    split
    · next hlt =>
      refine List.Pairwise.cons ?_ (List.Pairwise.cons hy hys)
      intro b hb
      rcases List.mem_cons.mp hb with rfl | hb2
      · exact le_of_lt hlt
      · exact le_trans (hy b hb2) (le_of_lt hlt)
    · next hge =>
      refine List.Pairwise.cons ?_ (ih hys)
      intro b hb
      rcases (mem_insertDesc key x b ys).mp hb with rfl | hb2
      · exact Nat.le_of_not_lt hge
      · exact hy b hb2

theorem sortDescBy_sorted {α : Type} (key : α → Nat) (l : List α) :
    (sortDescBy key l).Pairwise (fun a b => key b ≤ key a) := by
  suffices h : ∀ acc, acc.Pairwise (fun a b => key b ≤ key a) →
      (l.foldl (fun acc x => insertDesc key x acc) acc).Pairwise (fun a b => key b ≤ key a) by
    exact h [] (by simp)
  induction l with
  | nil => intro acc h; exact h
  | cons x xs ih =>
    intro acc h
    exact ih (insertDesc key x acc) (insertDesc_sorted key x acc h)

theorem mem_sortDescBy {α : Type} (key : α → Nat) (l : List α) (a : α) :
    a ∈ sortDescBy key l ↔ a ∈ l := by
  suffices h : ∀ acc, a ∈ l.foldl (fun acc x => insertDesc key x acc) acc ↔ a ∈ acc ∨ a ∈ l by
    simpa using h []
  induction l with
  | nil => intro acc; simp
  | cons x xs ih =>
    intro acc
    simp only [List.foldl_cons]
    rw [ih (insertDesc key x acc)]
    rw [mem_insertDesc]
    simp only [List.mem_cons]
    tauto

theorem insertDesc_filter {α : Type} (key : α → Nat) (x : α) (s : Nat) :
    ∀ l : List α, l.Pairwise (fun a b => key b ≤ key a) →
      (insertDesc key x l).filter (fun a => key a == s) =
        if key x = s then (l.filter (fun a => key a == s)) ++ [x]
        else l.filter (fun a => key a == s) := by
  intro l
  induction l with
  | nil =>
    intro _
    by_cases hx : key x = s <;> simp [insertDesc, hx]
  | cons y ys ih =>
    intro hp
    rw [List.pairwise_cons] at hp
    obtain ⟨hy, hys⟩ := hp
    simp only [insertDesc]
    split
    · next hlt =>
      by_cases hx : key x = s
      · have hempty : (y :: ys).filter (fun a => key a == s) = [] := by
          rw [List.filter_eq_nil_iff]
          intro a ha
          have h1 : key a ≤ key y := by
            rcases List.mem_cons.mp ha with rfl | h2
            · exact le_refl _
            · exact hy a h2
          simp only [beq_iff_eq]
          omega
        have hbx : (key x == s) = true := beq_iff_eq.mpr hx
        rw [if_pos hx, List.filter_cons, hbx, hempty]
        simp
      · have hbx : (key x == s) = false := by simp [hx]
        rw [if_neg hx, List.filter_cons, hbx]
        simp
    · next hge =>
      rw [List.filter_cons, ih hys]
      by_cases hx : key x = s
      · simp only [if_pos hx]
        rw [List.filter_cons]
        by_cases hyx : key y = s
        · have : (key y == s) = true := beq_iff_eq.mpr hyx
          rw [this]
          simp
        · have : (key y == s) = false := by simp [hyx]
          rw [this]
          simp
      · simp only [if_neg hx]
        rw [List.filter_cons]

theorem sortDescBy_filter {α : Type} (key : α → Nat) (l : List α) (s : Nat) :
    (sortDescBy key l).filter (fun a => key a == s) = l.filter (fun a => key a == s) := by
  suffices h : ∀ acc, acc.Pairwise (fun a b => key b ≤ key a) →
      (l.foldl (fun acc x => insertDesc key x acc) acc).filter (fun a => key a == s) =
        acc.filter (fun a => key a == s) ++ l.filter (fun a => key a == s) by
    simpa using h [] (by simp)
  induction l with
  | nil => intro acc _; simp
  | cons x xs ih =>
    intro acc h
    simp only [List.foldl_cons]
    rw [ih (insertDesc key x acc) (insertDesc_sorted key x acc h)]
    rw [insertDesc_filter key x s acc h]
    rw [List.filter_cons]
    by_cases hx : key x = s
    · have hb : (key x == s) = true := beq_iff_eq.mpr hx
      rw [if_pos hx, hb]
      simp
    · have hb : (key x == s) = false := by simp [hx]
      rw [if_neg hx, hb]
      simp

/-- The distinct file paths of a chunk list, in first-seen order — the key
    order of the JS `Map` built by `RiskAnalyzer.analyze`. -/
def firstSeenFiles (chunks : List DiffChunk) : List String :=
  chunks.foldl (fun acc c => if c.filePath ∈ acc then acc else acc ++ [c.filePath]) []

theorem upsertChunk_keys (m : List (String × List DiffChunk)) (c : DiffChunk) :
    (upsertChunk m c).map Prod.fst =
      if c.filePath ∈ m.map Prod.fst then m.map Prod.fst
      else m.map Prod.fst ++ [c.filePath] := by
  unfold upsertChunk
  split
  · rw [List.map_map]
    apply List.map_congr_left
    intro p _
    simp only [Function.comp_apply]
    split <;> simp_all
  · rw [List.map_append]
    rfl

theorem groupByFile_keys (chunks : List DiffChunk) :
    (groupByFile chunks).map Prod.fst = firstSeenFiles chunks := by
  suffices h : ∀ m, (chunks.foldl upsertChunk m).map Prod.fst =
      chunks.foldl (fun acc c => if c.filePath ∈ acc then acc else acc ++ [c.filePath])
        (m.map Prod.fst) by
    exact h []
  induction chunks with
  | nil => intro m; rfl
  | cons c cs ih =>
    intro m
    simp only [List.foldl_cons]
    rw [ih (upsertChunk m c), upsertChunk_keys]

/-- C3: every report of the Risk Scorer has `0 ≤ score ≤ 100` (score is a
    `Nat`, so only the cap matters), `level` is exactly the threshold
    function of `score`, `reasons` is never empty, the output is sorted
    descending by score, and the sort is stable: within each score class the
    reports appear in the pre-sort order, whose file order is the first-seen
    file order of the input chunks. -/
theorem riskAnalyzer_contract (chunks : List DiffChunk) :
    (∀ r ∈ analyzeRisk chunks,
        r.score ≤ 100 ∧
        r.level = (if r.score ≥ 60 then "high"
                   else if r.score ≥ 30 then "medium" else "low") ∧
        r.reasons ≠ []) ∧
    (analyzeRisk chunks).Pairwise (fun a b => b.score ≤ a.score) ∧
    (∀ s, (analyzeRisk chunks).filter (fun r => r.score == s) =
        (analyzeUnsorted chunks).filter (fun r => r.score == s)) ∧
    (analyzeUnsorted chunks).map RiskReport.filePath = firstSeenFiles chunks := by
  refine ⟨?_, ?_, ?_, ?_⟩
  · intro r hr
    rw [show analyzeRisk chunks
        = sortDescBy (fun r => r.score) (analyzeUnsorted chunks) from rfl] at hr
    rw [mem_sortDescBy] at hr
    obtain ⟨p, _, rfl⟩ := List.mem_map.mp hr
    refine ⟨min_le_right _ _, rfl, ?_⟩
    simp only [mkRiskReport]
    split
    · simp
    · next h => exact h
  · exact sortDescBy_sorted (fun r => r.score) (analyzeUnsorted chunks)
  · intro s
    exact sortDescBy_filter (fun r => r.score) (analyzeUnsorted chunks) s
  · unfold analyzeUnsorted
    rw [List.map_map]
    rw [show (RiskReport.filePath ∘ fun p => mkRiskReport p.1 p.2)
        = (Prod.fst : String × List DiffChunk → String) from funext (fun p => rfl)]
    exact groupByFile_keys chunks

/-- A concrete auth-directory chunk used by the risk witnesses. -/
def demoRiskChunk : DiffChunk :=
  { filePath := "src/auth/login.ts", type := DiffType.addition, startLine := 1, endLine := 2,
    content := "+password = x\n+token", metadata := ⟨false, false, true⟩ }

theorem riskAnalyzer_contract_witness :
    (mkRiskReport "src/auth/login.ts" [demoRiskChunk]).score ≤ 100 ∧
    (mkRiskReport "src/auth/login.ts" [demoRiskChunk]).level
      = (if (mkRiskReport "src/auth/login.ts" [demoRiskChunk]).score ≥ 60 then "high"
         else if (mkRiskReport "src/auth/login.ts" [demoRiskChunk]).score ≥ 30 then "medium"
         else "low") ∧
    (mkRiskReport "src/auth/login.ts" [demoRiskChunk]).reasons ≠ [] ∧
    (analyzeUnsorted [demoRiskChunk]).map RiskReport.filePath
      = firstSeenFiles [demoRiskChunk] := by
  have h := riskAnalyzer_contract [demoRiskChunk]
  have hm := h.1 (mkRiskReport "src/auth/login.ts" [demoRiskChunk]) (by decide)
  exact ⟨hm.1, hm.2.1, hm.2.2, h.2.2.2⟩

/-- A chunk whose only security-flavoured words are `login`/`logout`. -/
def loginChunk : DiffChunk :=
  { filePath := "a.txt", type := DiffType.addition, startLine := 1, endLine := 1,
    content := "login logout", metadata := ⟨false, false, true⟩ }

/-- C7 counterexample: "login logout" matches the ten-word `DiffEngine`
    vocabulary the claim names (so per the claim the density rule should
    contribute min(5·2, 20) = 10 points), but the Risk Scorer's own regex
    lacks `login`/`logout`: its match count is 0, the rule does not fire,
    and the file scores 0 with only the placeholder reason. -/
theorem keyword_vocab_counterexample :
    countAuthMatches "login logout" = 0 ∧
    scanKws authKwsDiff none (lcList "login logout".data) = true ∧
    analyzeRisk [loginChunk] =
      [{ filePath := "a.txt", score := 0, level := "low",
         reasons := ["No significant risk factors identified"] }] :=
  ⟨by decide, by decide, by decide⟩

/-- The per-file score with the keyword-density rule removed. -/
def fileScoreExclKeyword (fp : String) (fcs : List DiffChunk) : Nat :=
  pathPoints fp + deletionPoints fcs + importChurnPoints fcs + functionChurnPoints fcs

/-- The keyword-density reason string is pushed whenever the count is
    positive. -/
theorem keyword_reason_mem (fp : String) (fcs : List DiffChunk)
    (hc : countAuthMatches (allContentOf fcs) > 0) :
    ("Contains " ++ toString (countAuthMatches (allContentOf fcs))
      ++ " auth-related keyword(s)") ∈ fileReasons fp fcs := by
  unfold fileReasons
  simp [List.mem_append, hc]

/-- C7 amended: with the Risk Scorer's actual vocabulary (auth, token,
    password, credential, secret, jwt, oauth, session — without login and
    logout), every report's score decomposes as the other rules' sum plus
    exactly min(5·count, 20) from the keyword-density rule when count > 0
    (all capped at 100 jointly), and the count is then reported in a
    reason string. -/
theorem keyword_density_rule (chunks : List DiffChunk) :
    ∀ r ∈ analyzeRisk chunks, ∃ fcs,
      (r.filePath, fcs) ∈ groupByFile chunks ∧
      r.score = min (fileScoreExclKeyword r.filePath fcs
        + (if countAuthMatches (allContentOf fcs) > 0
           then min (5 * countAuthMatches (allContentOf fcs)) 20 else 0)) 100 ∧
      (countAuthMatches (allContentOf fcs) > 0 →
        ("Contains " ++ toString (countAuthMatches (allContentOf fcs))
          ++ " auth-related keyword(s)") ∈ r.reasons) := by
  intro r hr
  rw [show analyzeRisk chunks
      = sortDescBy (fun r => r.score) (analyzeUnsorted chunks) from rfl,
    mem_sortDescBy] at hr
  obtain ⟨p, hp, rfl⟩ := List.mem_map.mp hr
  refine ⟨p.2, by simpa using hp, ?_, ?_⟩
  · have hdec : fileScoreRaw p.1 p.2
        = fileScoreExclKeyword p.1 p.2 + keywordPoints (allContentOf p.2) := by
      unfold fileScoreRaw fileScoreExclKeyword
      omega
    show min (fileScoreRaw p.1 p.2) 100 = _
    rw [hdec]
    rfl
  · intro hc
    show _ ∈ (mkRiskReport p.1 p.2).reasons
    simp only [mkRiskReport]
    split
    · next heq =>
      exfalso
      have hmem := keyword_reason_mem p.1 p.2 hc
      rw [heq] at hmem
      simp at hmem
    · exact keyword_reason_mem p.1 p.2 hc

theorem keyword_density_rule_witness :
    (mkRiskReport "src/auth/login.ts" [demoRiskChunk]).score
      = min (fileScoreExclKeyword "src/auth/login.ts" [demoRiskChunk]
        + (if countAuthMatches (allContentOf [demoRiskChunk]) > 0
           then min (5 * countAuthMatches (allContentOf [demoRiskChunk])) 20 else 0)) 100 ∧
    ("Contains " ++ toString (countAuthMatches (allContentOf [demoRiskChunk]))
      ++ " auth-related keyword(s)")
      ∈ (mkRiskReport "src/auth/login.ts" [demoRiskChunk]).reasons := by
  obtain ⟨fcs, h1, h2, h3⟩ := keyword_density_rule [demoRiskChunk]
    (mkRiskReport "src/auth/login.ts" [demoRiskChunk]) (by decide)
  have hfcs : fcs = [demoRiskChunk] := by
    rw [show groupByFile [demoRiskChunk]
        = [("src/auth/login.ts", [demoRiskChunk])] from by decide] at h1
    exact congrArg Prod.snd (List.mem_singleton.mp h1)
  subst hfcs
  exact ⟨h2, h3 (by decide)⟩


/-! ### Line splitting and joining -/

theorem splitOnCh_ne_nil (sep : Char) : ∀ cs : List Char, splitOnCh sep cs ≠ [] := by
  intro cs
  induction cs with
  | nil => simp [splitOnCh]
  | cons c cs' ih =>
    simp only [splitOnCh]
    split
    · next heq => exact absurd heq ih
    · split <;> simp

theorem splitOnCh_no_sep (sep : Char) : ∀ cs : List Char, ∀ l ∈ splitOnCh sep cs, sep ∉ l := by
  intro cs
  induction cs with
  | nil =>
    intro l hl
    rw [List.mem_singleton.mp hl]
    simp
  | cons c cs' ih =>
    intro l hl
    simp only [splitOnCh] at hl
    split at hl
    · next heq => exact absurd heq (splitOnCh_ne_nil sep cs')
    · next p ps heq =>
      split at hl
      · rcases List.mem_cons.mp hl with rfl | hl2
        · simp
        · exact ih l (by rw [heq]; exact hl2)
      · next hcne =>
        rcases List.mem_cons.mp hl with rfl | hl2
        · intro hmem
          rcases List.mem_cons.mp hmem with h2 | hmem2
          · exact hcne h2.symm
          · exact ih p (by rw [heq]; exact List.mem_cons_self p ps) hmem2
        · exact ih l (by rw [heq]; exact List.mem_cons_of_mem p hl2)

theorem splitOnCh_eq_single (sep : Char) : ∀ l : List Char, sep ∉ l → splitOnCh sep l = [l] := by
  intro l
  induction l with
  | nil => intro _; rfl
  | cons c l' ih =>
    intro hns
    have hcs : ¬ (c = sep) := fun hh => hns (hh ▸ List.mem_cons_self c l')
    simp only [splitOnCh]
    rw [ih (fun hh => hns (List.mem_cons_of_mem c hh))]
    simp [hcs]

theorem splitOnCh_append (sep : Char) :
    ∀ l : List Char, sep ∉ l → ∀ r, splitOnCh sep (l ++ sep :: r) = l :: splitOnCh sep r := by
  intro l
  induction l with
  | nil =>
    intro _ r
    simp only [List.nil_append, splitOnCh]
    split
    · next heq => exact absurd heq (splitOnCh_ne_nil sep r)
    · next p ps heq => simp [← heq]
  | cons c l' ih =>
    intro hns r
    have hcs : ¬ (c = sep) := fun hh => hns (hh ▸ List.mem_cons_self c l')
    have hns' : sep ∉ l' := fun hh => hns (List.mem_cons_of_mem c hh)
    simp only [List.cons_append, splitOnCh]
    rw [show l'.append (sep :: r) = l' ++ sep :: r from rfl, ih hns' r]
    simp [hcs]

/-- Splitting undoes joining, for a non-empty list of separator-free lines —
    the key fact linking a hunk's stored text back to its accumulated
    lines. -/
theorem splitOnCh_joinCh (sep : Char) :
    ∀ ls : List (List Char), ls ≠ [] → (∀ l ∈ ls, sep ∉ l) →
      splitOnCh sep (joinCh sep ls) = ls := by
  intro ls
  induction ls with
  | nil => intro h _; exact absurd rfl h
  | cons l ls' ih =>
    intro _ hns
    cases ls' with
    | nil =>
      simp only [joinCh]
      exact splitOnCh_eq_single sep l (hns l (List.mem_cons_self l []))
    | cons l2 ls'' =>
      simp only [joinCh]
      rw [splitOnCh_append sep l (hns l (List.mem_cons_self l (l2 :: ls''))) _]
      rw [ih (by simp) (fun x hx => hns x (List.mem_cons_of_mem l hx))]

/-! ### Decomposition of `parseDiff` output -/

theorem mem_flushHunk (fp : String) (st : Nat) (acc : List (List Char)) (ch : DiffChunk)
    (h : ch ∈ flushHunk fp st acc) : acc ≠ [] ∧ ch = mkHunkChunk fp st acc := by
  cases acc with
  | nil => simp [flushHunk] at h
  | cons a as => exact ⟨by simp, List.mem_singleton.mp h⟩

theorem mem_processLines (fp : String) :
    ∀ (lines : List (List Char)) (curStart : Nat) (acc : List (List Char)) (ch : DiffChunk),
      (∀ l ∈ lines, '\n' ∉ l) → (∀ l ∈ acc, '\n' ∉ l) →
      ch ∈ processLines fp lines curStart acc →
      ∃ st acc2, acc2 ≠ [] ∧ (∀ l ∈ acc2, '\n' ∉ l) ∧ ch = mkHunkChunk fp st acc2 := by
  intro lines
  induction lines with
  | nil =>
    intro curStart acc ch _ hacc h
    obtain ⟨hne, heq⟩ := mem_flushHunk fp curStart acc ch h
    exact ⟨curStart, acc, hne, hacc, heq⟩
  | cons l rest ih =>
    intro curStart acc ch hlines hacc h
    have hrest : ∀ x ∈ rest, '\n' ∉ x := fun x hx => hlines x (List.mem_cons_of_mem l hx)
    simp only [processLines] at h
    split at h
    · rcases List.mem_append.mp h with h1 | h2
      · obtain ⟨hne, heq⟩ := mem_flushHunk fp curStart acc ch h1
        exact ⟨curStart, acc, hne, hacc, heq⟩
      · next ns _ => exact ih ns [] ch hrest (by simp) h2
    · split at h
      · refine ih curStart (acc ++ [l]) ch hrest ?_ h
        intro x hx
        rcases List.mem_append.mp hx with h1 | h2
        · exact hacc x h1
        · rw [List.mem_singleton.mp h2]
          exact hlines l (List.mem_cons_self l rest)
      · exact ih curStart acc ch hrest hacc h

theorem mem_processBlock (block : List Char) (ch : DiffChunk)
    (h : ch ∈ processBlock block) :
    ∃ fp st acc, acc ≠ [] ∧ (∀ l ∈ acc, '\n' ∉ l) ∧ ch = mkHunkChunk fp st acc := by
  unfold processBlock at h
  split at h
  · simp at h
  next first restl heq =>
    split at h
    · simp at h
    next pc _ =>
      obtain ⟨st, acc2, hne, hnl, heq2⟩ := mem_processLines (jsTrim (String.mk pc))
        (first :: restl) 0 [] ch
        (fun x hx => splitOnCh_no_sep '\n' block x (by rw [heq]; exact hx)) (by simp) h
      exact ⟨jsTrim (String.mk pc), st, acc2, hne, hnl, heq2⟩

theorem mem_parseDiff (diff : String) (ch : DiffChunk) (h : ch ∈ parseDiff diff) :
    ∃ fp st acc, acc ≠ [] ∧ (∀ l ∈ acc, '\n' ∉ l) ∧ ch = mkHunkChunk fp st acc := by
  unfold parseDiff at h
  split at h
  · simp at h
  · obtain ⟨s, hs, hmem⟩ := List.mem_flatten.mp h
    obtain ⟨b, _, rfl⟩ := List.mem_map.mp hs
    exact mem_processBlock b ch hmem

/-- The number of text lines of a chunk's stored content (`split('\n')`). -/
def lineCount (s : String) : Nat := (splitOnCh '\n' s.data).length

/-- C4: for every chunk produced by `parse`, startLine ≤ endLine, and the
    line span matches the stored content exactly:
    endLine = startLine + lineCount − 1, and
    lineCount = endLine − startLine + 1. -/
theorem chunk_line_span (diff : String) :
    ∀ ch ∈ parseDiff diff,
      ch.startLine ≤ ch.endLine ∧
      ch.endLine = ch.startLine + lineCount ch.content - 1 ∧
      lineCount ch.content = ch.endLine - ch.startLine + 1 := by
  intro ch hch
  obtain ⟨fp, st, acc, hne, hnl, rfl⟩ := mem_parseDiff diff ch hch
  have hlen : lineCount (mkHunkChunk fp st acc).content = acc.length := by
    unfold lineCount
    exact congrArg List.length (splitOnCh_joinCh '\n' acc hne hnl)
  have hlen1 : 1 ≤ acc.length := by
    rcases acc with _ | _
    · exact absurd rfl hne
    · simp
  refine ⟨?_, ?_, ?_⟩
  · show st ≤ st + acc.length - 1
    omega
  · show st + acc.length - 1 = st + lineCount (mkHunkChunk fp st acc).content - 1
    rw [hlen]
  · rw [hlen]
    show acc.length = (st + acc.length - 1) - st + 1
    omega

/-- The concrete diff used by the parser witnesses. -/
def demoDiff : String := "diff --git a/f b/f\n@@ -1 +5,2 @@\n+new line\n ctx"

/-- The single chunk `parse` produces from `demoDiff`. -/
def demoDiffChunk : DiffChunk :=
  { filePath := "f", type := DiffType.addition, startLine := 5, endLine := 6,
    content := "+new line\n ctx", metadata := ⟨false, false, false⟩ }

theorem chunk_line_span_witness :
    demoDiffChunk.startLine ≤ demoDiffChunk.endLine ∧
    demoDiffChunk.endLine = demoDiffChunk.startLine + lineCount demoDiffChunk.content - 1 ∧
    lineCount demoDiffChunk.content = demoDiffChunk.endLine - demoDiffChunk.startLine + 1 :=
  chunk_line_span demoDiff demoDiffChunk (by decide)

/-- The claim-side reading of "contains at least one added line": some line
    of the stored text starts with `+` and not with `+++`. -/
def hasAddedLine (s : String) : Bool := (splitOnCh '\n' s.data).any isAddLine

/-- Likewise for removed lines (`-` but not `---`). -/
def hasRemovedLine (s : String) : Bool := (splitOnCh '\n' s.data).any isDelLine

/-- C5 amended: for every chunk produced by `parse`, kind is `modification`
    iff the text has both an added and a removed line, `addition` iff it has
    an added and no removed line, and `deletion` iff it has **no added
    line** — whether or not a removed line is present (a hunk with neither
    kind of line is classified `deletion` by the final ternary branch). -/
theorem chunk_kind_characterization (diff : String) :
    ∀ ch ∈ parseDiff diff,
      (ch.type = DiffType.modification ↔
        hasAddedLine ch.content = true ∧ hasRemovedLine ch.content = true) ∧
      (ch.type = DiffType.addition ↔
        hasAddedLine ch.content = true ∧ hasRemovedLine ch.content = false) ∧
      (ch.type = DiffType.deletion ↔ hasAddedLine ch.content = false) := by
  intro ch hch
  obtain ⟨fp, st, acc, hne, hnl, rfl⟩ := mem_parseDiff diff ch hch
  have hsplit := splitOnCh_joinCh '\n' acc hne hnl
  have hA : hasAddedLine (mkHunkChunk fp st acc).content = acc.any isAddLine := by
    unfold hasAddedLine
    rw [show (mkHunkChunk fp st acc).content.data = joinCh '\n' acc from rfl, hsplit]
  have hD : hasRemovedLine (mkHunkChunk fp st acc).content = acc.any isDelLine := by
    unfold hasRemovedLine
    rw [show (mkHunkChunk fp st acc).content.data = joinCh '\n' acc from rfl, hsplit]
  rw [show (mkHunkChunk fp st acc).type = hunkType acc from rfl, hA, hD]
  unfold hunkType
  cases ha : acc.any isAddLine <;> cases hd : acc.any isDelLine <;> simp

theorem chunk_kind_characterization_witness :
    demoDiffChunk.type = DiffType.addition ∧
    hasAddedLine demoDiffChunk.content = true ∧
    hasRemovedLine demoDiffChunk.content = false :=
  ⟨((chunk_kind_characterization demoDiff demoDiffChunk (by decide)).2.1).mpr
      ⟨by decide, by decide⟩,
   by decide, by decide⟩

/-- A diff whose only hunk holds a single context line. -/
def ctxOnlyDiff : String := "diff --git a/f b/f\n@@ -1 +1 @@\n ctx"

/-- C5 counterexample: a context-only hunk (no added and no removed lines)
    is classified `deletion`, although per the claim `deletion` requires at
    least one removed line. -/
theorem chunk_kind_counterexample :
    (parseDiff ctxOnlyDiff).map (fun ch => ch.type) = [DiffType.deletion] ∧
    (parseDiff ctxOnlyDiff).map (fun ch => ch.content) = [" ctx"] ∧
    hasRemovedLine " ctx" = false ∧ hasAddedLine " ctx" = false :=
  ⟨by decide, by decide, by decide, by decide⟩

theorem dropWhile_all_append (p : Char → Bool) :
    ∀ ws t : List Char, (∀ c ∈ ws, p c = true) →
      (∀ c, t.head? = some c → p c = false) →
      (ws ++ t).dropWhile p = t := by
  intro ws
  induction ws with
  | nil =>
    intro t _ ht
    cases t with
    | nil => rfl
    | cons c cs =>
      simp only [List.nil_append, List.dropWhile_cons]
      rw [ht c rfl]
      simp
  | cons w ws' ih =>
    intro t hws ht
    have hw : p w = true := hws w (List.mem_cons_self w ws')
    simp only [List.cons_append, List.dropWhile_cons, hw, if_true]
    exact ih t (fun c hc => hws c (List.mem_cons_of_mem w hc)) ht

/-- Correctness of the anchored import-change test: it holds exactly when
    the whole hunk text starts with `+` or `-`, followed by (possibly
    multi-line) whitespace, an `import`/`require`/`from` keyword, and a word
    boundary. -/
theorem importFlag_iff (cs : List Char) :
    importFlag cs = true ↔
      ∃ m ws kw rest, cs = m :: (ws ++ (kw ++ rest)) ∧ (m = '+' ∨ m = '-') ∧
        (∀ c ∈ ws, jsWs c = true) ∧ kw ∈ importKws ∧
        wordCharO rest.head? = false := by
  constructor
  · intro h
    cases cs with
    | nil => simp [importFlag] at h
    | cons m rest0 =>
      simp only [importFlag, Bool.and_eq_true, List.any_eq_true] at h
      obtain ⟨hm, kw, hkw, hpre1, hbound⟩ := h
      obtain ⟨t, ht⟩ := List.isPrefixOf_iff_prefix.mp hpre1
      refine ⟨m, rest0.takeWhile jsWs, kw, t, ?_, ?_, ?_, hkw, ?_⟩
      · rw [ht, List.takeWhile_append_dropWhile]
      · simpa using hm
      · exact fun c hc => List.mem_takeWhile_imp hc
      · have hdt : (rest0.dropWhile jsWs).drop kw.length = t := by
          rw [← ht]
          exact List.drop_left kw t
        rw [hdt] at hbound
        simpa using hbound
  · rintro ⟨m, ws, kw, rest, rfl, hm, hws, hkw, hbound⟩
    have hdrop : (ws ++ (kw ++ rest)).dropWhile jsWs = kw ++ rest := by
      apply dropWhile_all_append jsWs ws (kw ++ rest) hws
      intro c hc
      fin_cases hkw
      · rw [show (("import".data : List Char) ++ rest).head? = some 'i' from rfl] at hc
        injection hc with hc2
        subst hc2
        decide
      · rw [show (("require".data : List Char) ++ rest).head? = some 'r' from rfl] at hc
        injection hc with hc2
        subst hc2
        decide
      · rw [show (("from".data : List Char) ++ rest).head? = some 'f' from rfl] at hc
        injection hc with hc2
        subst hc2
        decide
    simp only [importFlag]
    rw [Bool.and_eq_true]
    constructor
    · rcases hm with rfl | rfl <;> decide
    · rw [hdrop]
      refine List.any_eq_true.mpr ⟨kw, hkw, ?_⟩
      rw [Bool.and_eq_true]
      constructor
      · exact List.isPrefixOf_iff_prefix.mpr ⟨rest, rfl⟩
      · rw [List.drop_left]
        simp [hbound]

/-- C6 amended: for every chunk produced by `parse`, the
    contains-import-change flag is true iff the chunk's hunk text **as a
    whole** starts with `+` or `-` followed by optional whitespace (which
    may span line breaks) and an `import`/`require`/`from` keyword at a word
    boundary — the regex has no `m` flag, so a matching line later in the
    hunk does not set the flag. -/
theorem import_flag_characterization (diff : String) :
    ∀ ch ∈ parseDiff diff,
      (ch.metadata.containsImportChange = true ↔
        ∃ m ws kw rest, ch.content.data = m :: (ws ++ (kw ++ rest)) ∧
          (m = '+' ∨ m = '-') ∧ (∀ c ∈ ws, jsWs c = true) ∧ kw ∈ importKws ∧
          wordCharO rest.head? = false) := by
  intro ch hch
  obtain ⟨fp, st, acc, _, _, rfl⟩ := mem_parseDiff diff ch hch
  exact importFlag_iff (joinCh '\n' acc)

/-- A diff whose hunk has an import line in second position only. -/
def lateImportDiff : String := "diff --git a/f b/f\n@@ -1 +1,2 @@\n ctx\n+import x"

/-- C6 counterexample: the chunk's second line starts with `+import`, so per
    the claim the flag should be true; the source regex is anchored at the
    start of the whole text (first character is a space) and the flag is
    false.  The last conjunct shows the claim's per-line reading holds of
    the text. -/
theorem import_flag_counterexample :
    (parseDiff lateImportDiff).map (fun ch => ch.metadata.containsImportChange) = [false] ∧
    (parseDiff lateImportDiff).map (fun ch => ch.content) = [" ctx\n+import x"] ∧
    (splitOnCh '\n' " ctx\n+import x".data).any (fun l => importFlag l) = true :=
  ⟨by decide, by decide, by decide⟩

/-- A diff whose hunk starts with `+import x`. -/
def earlyImportDiff : String := "diff --git a/f b/f\n@@ -1 +1 @@\n+import x"

/-- The single chunk `parse` produces from `earlyImportDiff`. -/
def earlyImportChunk : DiffChunk :=
  { filePath := "f", type := DiffType.addition, startLine := 1, endLine := 1,
    content := "+import x", metadata := ⟨false, true, false⟩ }

theorem import_flag_characterization_witness :
    earlyImportChunk.metadata.containsImportChange = true :=
  (import_flag_characterization earlyImportDiff earlyImportChunk (by decide)).mpr
    ⟨'+', [], "import".data, " x".data, by decide, Or.inl rfl, by simp,
     by decide, by decide⟩
